import Mathlib

/-!
Verification of the batch-oriented data-access layer of the news static-site
generator (`src/lib/api.ts`, `src/lib/utils.ts`).

The JavaScript/TypeScript code is shallowly embedded:

* the remote data state is a function from batch id to the outcome of one
  transport-level fetch (`FetchResult`): the decoded item list on HTTP
  success, or a failure (non-success status, network error, timeout);
* the JavaScript `Map` objects (batch grouping, the caches in `utils.ts`)
  are insertion-ordered association lists with `Map.set` / `Map.get`
  semantics (`mapSet` / `mapGet`, `insertGroup`);
* `Array.prototype.sort` (required to be stable since ES2019) is modelled by
  a stable sort (`List.insertionSort`); a stable sort with a consistent
  comparator has a unique output, so any stable sort is a faithful model;
* stateful cached accessors take the cache as an argument and return the new
  cache, together with the number of transport requests the call issued.
-/

namespace NewsFE

/-- A raw news item (`NewsRawItem` in `src/types/db.ts`).  Only the fields
the data-access layer itself reads are modelled: `id` (batching, ordering,
lookup), `title` and `article` (search); the remaining JSON payload fields
are carried opaquely by the code and never inspected. -/
structure RawItem where
  id : Int
  title : String
  article : String
deriving DecidableEq

/-- A clustered news article (`NewsArticle` in `src/types/db.ts`); the
single-article accessor only ever reads `id`. -/
structure NewsArticle where
  id : Int
deriving DecidableEq

/-- Outcome of one transport-level batch fetch: the decoded JSON list on
HTTP success, or a failure (non-success status such as 404, network error,
timeout). -/
inductive FetchResult (α : Type) where
  | ok (items : List α)
  | err
deriving DecidableEq

/-- The remote data state for `news_raw.<batch>.json` resources: what the
transport returns for each batch id. -/
def RawStore := Int → FetchResult RawItem

/-- The remote data state for `news_articles.<batch>.json` resources. -/
def ArticleStore := Int → FetchResult NewsArticle

/-- `getBatchId` from `src/lib/api.ts` / `src/lib/utils.ts`:
`Math.floor(newsId / 100) * 100`.  `Int.fdiv` is floor division, which
matches JavaScript `Math.floor` of a quotient on negative inputs as well. -/
def getBatchId (newsId : Int) : Int := newsId.fdiv 100 * 100

/-- `fetchNewsRawBatch` from `src/lib/api.ts` (uncached build variant):
re-derives the batch start from the given id, and converts any non-success
response or thrown error into an empty list. -/
def fetchNewsRawBatch (st : RawStore) (startId : Int) : List RawItem :=
  match st (getBatchId startId) with
  | .ok items => items
  | .err => []

/-- One `Map.set`-style step of the batch grouping in `fetchNewsRawByIds`:
append the id to the entry for its batch if present, otherwise add a new
entry at the end (JavaScript `Map` preserves insertion order). -/
def insertGroup (gs : List (Int × List Int)) (b : Int) (i : Int) :
    List (Int × List Int) :=
  match gs with
  | [] => [(b, [i])]
  | (b0, l0) :: rest =>
    if b0 = b then (b0, l0 ++ [i]) :: rest
    else (b0, l0) :: insertGroup rest b i

/-- The batch-group map built by the first loop of `fetchNewsRawByIds`:
requested ids grouped by `getBatchId`, keys in first-occurrence order. -/
def batchGroups (ids : List Int) : List (Int × List Int) :=
  ids.foldl (fun gs i => insertGroup gs (getBatchId i) i) []

/-- Index of the last occurrence of `i` in `ids`, if any.  This is the
binding kept by `new Map(ids.map((id, index) => [id, index]))`: a JavaScript
`Map` built from pairs keeps the last value written for a duplicated key. -/
def lastIdx (ids : List Int) (i : Int) : Option Nat :=
  match ids with
  | [] => none
  | x :: rest =>
    match lastIdx rest i with
    | some k => some (k + 1)
    | none => if x = i then some 0 else none

/-- The sort key `idOrder.get(id) || 0` used by `fetchNewsRawByIds`: the
(last) index of `id` in the input, with a missing key collapsing to `0`. -/
def sortKey (ids : List Int) (i : Int) : Nat := (lastIdx ids i).getD 0

/-- The concatenation step of `fetchNewsRawByIds`: for each batch group, the
batch is fetched and filtered to the items whose id was requested for that
batch, in batch order. -/
def byIdsPre (st : RawStore) (ids : List Int) : List RawItem :=
  (batchGroups ids).flatMap
    (fun g => (fetchNewsRawBatch st g.1).filter (fun item => g.2.contains item.id))

/-- The comparator of the final sort of `fetchNewsRawByIds`:
`(a, b) => (idOrder.get(a.id) || 0) - (idOrder.get(b.id) || 0)`, i.e. sort
ascending by input-order key. -/
def byIdsLE (ids : List Int) (a b : RawItem) : Prop :=
  sortKey ids a.id ≤ sortKey ids b.id

instance byIdsLE.decidable (ids : List Int) : DecidableRel (byIdsLE ids) :=
  fun _ _ => Nat.decLe _ _

/-- `fetchNewsRawByIds` from `src/lib/api.ts`: empty input short-circuits;
otherwise group ids by batch, fetch each batch once, keep the matching
items, and stable-sort the concatenation by the input-order key. -/
def fetchNewsRawByIds (st : RawStore) (ids : List Int) : List RawItem :=
  if ids = [] then []
  else List.insertionSort (byIdsLE ids) (byIdsPre st ids)

/-- The batch ids fetched by one `fetchNewsRawByIds` call, in fetch order:
the second loop issues exactly one `fetchNewsRawBatch` per key of the
batch-group map. -/
def fetchNewsRawByIdsLog (ids : List Int) : List Int :=
  (batchGroups ids).map Prod.fst

/-- `fetchNewsRawById` from `src/lib/api.ts`: fetch the id's batch and
linear-search it; absent items give `none` (`undefined`). -/
def fetchNewsRawById (st : RawStore) (id : Int) : Option RawItem :=
  (fetchNewsRawBatch st id).find? (fun item => item.id == id)

/-- Whether the id's batch (as fetched by `fetchNewsRawBatch`, failures
already collapsed to `[]`) contains an item with that id. -/
def foundInBatch (st : RawStore) (i : Int) : Bool :=
  (fetchNewsRawBatch st i).any (fun item => item.id == i)

/-- JavaScript `String.prototype.toLowerCase` over the character list. -/
def lowerStr (s : String) : String := ⟨s.data.map Char.toLower⟩

/-- `pat` is a leading segment of `s` (character lists). -/
def startsWithL : List Char → List Char → Bool
  | _, [] => true
  | [], _ :: _ => false
  | c :: cs, p :: ps => c == p && startsWithL cs ps

/-- `pat` occurs contiguously somewhere in `s` (character lists). -/
def containsL : List Char → List Char → Bool
  | [], pat => pat.isEmpty
  | c :: cs, pat => startsWithL (c :: cs) pat || containsL cs pat

/-- JavaScript `String.prototype.includes`. -/
def strIncludes (s pat : String) : Bool := containsL s.data pat.data

/-- The per-item predicate of `searchNews`: case-insensitive substring match
against the `title` or the `article` body. -/
def matchesQuery (queryLower : String) (item : RawItem) : Bool :=
  strIncludes (lowerStr item.title) queryLower ||
    strIncludes (lowerStr item.article) queryLower

/-- `searchNews` from `src/lib/api.ts`: scans `Math.ceil(staticLimit/100)`
batches starting at batch `0` (i.e. batches `0, 100, 200, ...`), filters by
the case-insensitive substring predicate in scan order, and truncates to
`limit`.  `staticLimit` models the `NEWS_STATIC_ARTICLE_LIMIT` setting. -/
def searchNews (st : RawStore) (staticLimit : Nat) (query : String)
    (limit : Nat) : List RawItem :=
  let numBatches := (staticLimit + 99) / 100
  let allItems :=
    ((List.range numBatches).map
      (fun i => fetchNewsRawBatch st ((i : Int) * 100))).flatten
  let queryLower := lowerStr query
  (allItems.filter (matchesQuery queryLower)).take limit

/-- The batch ids scanned by `searchNews`: the loop fetches batch `i * 100`
for `i < Math.ceil(staticLimit/100)`. -/
def searchNewsLog (staticLimit : Nat) : List Int :=
  (List.range ((staticLimit + 99) / 100)).map (fun i => (i : Int) * 100)

/-- The pre-truncation pool of `fetchRecentNews`: the concatenation of the
`Math.ceil(limit/100)` batches fetched at `latestId - i * 100`. -/
def recentPool (st : RawStore) (latestId : Int) (limit : Nat) : List RawItem :=
  ((List.range ((limit + 99) / 100)).map
    (fun i => fetchNewsRawBatch st (latestId - (i : Int) * 100))).flatten

/-- The comparator of the final sort of `fetchRecentNews`:
`(a, b) => b.id - a.id`, i.e. sort descending by id. -/
def recentLE (a b : RawItem) : Prop := b.id ≤ a.id

instance recentLE.decidable : DecidableRel recentLE :=
  fun _ _ => Int.decLe _ _

/-- `fetchRecentNews` from `src/lib/api.ts`, with the memoized `meta` fetch
modelled by passing the `latest_id` value it reads: fetch
`Math.ceil(limit/100)` batches walking back from `latestId` in strides of
100, sort the concatenation descending by id, truncate to `limit`. -/
def fetchRecentNews (st : RawStore) (latestId : Int) (limit : Nat) :
    List RawItem :=
  (List.insertionSort recentLE (recentPool st latestId limit)).take limit

/-- JavaScript `Map.prototype.set` on an insertion-ordered association list:
update in place if the key is present, otherwise append at the end. -/
def mapSet {β : Type} (m : List (Int × β)) (k : Int) (v : β) :
    List (Int × β) :=
  match m with
  | [] => [(k, v)]
  | (k0, v0) :: rest =>
    if k0 = k then (k0, v) :: rest else (k0, v0) :: mapSet rest k v

/-- JavaScript `Map.prototype.get` on an association list. -/
def mapGet {β : Type} (m : List (Int × β)) (k : Int) : Option β :=
  match m with
  | [] => none
  | (k0, v0) :: rest => if k0 = k then some v0 else mapGet rest k

/-- Result of one call to a cached accessor: the returned value, the cache
after the call, and the number of transport requests the call issued. -/
structure BatchCallResult where
  items : List RawItem
  cache : List (Int × List RawItem)
  fetches : Nat
deriving DecidableEq

/-- `fetchNewsRawBatch` from `src/lib/utils.ts` (cached build variant):
return the cached list when `newsRawBatchCache` has the batch; otherwise
issue one uncached fetch, storing the result in the cache on success, and
returning `[]` without touching the cache when the fetch throws. -/
def fetchNewsRawBatchCached (st : RawStore)
    (cache : List (Int × List RawItem)) (startId : Int) : BatchCallResult :=
  let batchStart := getBatchId startId
  match mapGet cache batchStart with
  | some items => ⟨items, cache, 0⟩
  | none =>
    match st batchStart with
    | .ok items => ⟨items, mapSet cache batchStart items, 1⟩
    | .err => ⟨[], cache, 1⟩

/-- Result of one call to the cached single-article accessor. -/
structure ArticleCallResult where
  article : Option NewsArticle
  cache : List (Int × List NewsArticle)
  fetches : Nat
deriving DecidableEq

/-- `fetchNewsArticleById` from `src/lib/utils.ts` (cached build variant):
the cache is probed under `batchStart`, but on a successful fetch that finds
the article the batch list is stored under the item `id` (the source writes
`newsArticleCache.set(id, articles)` after checking `has(batchStart)`); a
failed fetch returns `undefined` without caching. -/
def fetchNewsArticleByIdCached (st : ArticleStore)
    (cache : List (Int × List NewsArticle)) (id : Int) : ArticleCallResult :=
  let batchStart := getBatchId id
  match mapGet cache batchStart with
  | some articles => ⟨articles.find? (fun a => a.id == id), cache, 0⟩
  | none =>
    match st batchStart with
    | .ok articles =>
      match articles.find? (fun a => a.id == id) with
      | some a => ⟨some a, mapSet cache id articles, 1⟩
      | none => ⟨none, cache, 1⟩
    | .err => ⟨none, cache, 1⟩

/-! ### Concrete data states used by counterexamples and witnesses -/

/-- An item whose text fields are irrelevant to the claim at hand. -/
def itm (i : Int) : RawItem := ⟨i, "", ""⟩

/-- State for the C1 counterexample: batch 0 holds items 10 and 30. -/
def stC1 : RawStore := fun b => if b = 0 then .ok [itm 10, itm 30] else .err

/-- State for the C2 counterexample: items exist densely up to `latest_id =
103` near the batch boundary (batch 0 ends with item 99, batch 100 holds
items 100-103). -/
def stC2 : RawStore := fun b =>
  if b = 0 then .ok [itm 99]
  else if b = 100 then .ok [itm 100, itm 101, itm 102, itm 103]
  else .err

/-- A most-recent item whose title contains the search query. -/
def hitItem : RawItem := ⟨950, "xyz123 headline", "irrelevant body"⟩

/-- An old item matching nothing. -/
def missItem : RawItem := ⟨1, "hello", "world"⟩

/-- State for C4: the corpus extends to `latest_id = 950`; the only match
for the query sits in the most recent batch (900), while batch 0 (the one
the code actually scans with `staticLimit = 100`) has no match. -/
def stC4 : RawStore := fun b =>
  if b = 0 then .ok [missItem]
  else if b = 900 then .ok [hitItem]
  else .err

/-- The C4 search query. -/
def queryC4 : String := "xyz123"

/-- A state in which every batch fetch fails. -/
def stErr : RawStore := fun _ => .err

/-- Article 250, which lives in batch 200. -/
def artC7 : NewsArticle := ⟨250⟩

/-- State for C7: batch 200 of `news_articles` holds article 250. -/
def stC7 : ArticleStore := fun b => if b = 200 then .ok [artC7] else .err

/-! ### Arithmetic facts about `getBatchId` -/

/-- Floor division by the positive constant 100 agrees with Euclidean
division. -/
theorem fdiv100 (a : Int) : a.fdiv 100 = a / 100 :=
  Int.fdiv_eq_ediv a (by norm_num)

/-- Adding an offset in `[0, 100)` to a batch start does not change the
batch. -/
theorem getBatchId_add_idem (n k : Int) (hk0 : 0 ≤ k) (hk : k < 100) :
    getBatchId (getBatchId n + k) = getBatchId n := by
  simp only [getBatchId, fdiv100]
  omega

/-- `getBatchId` is idempotent. -/
theorem getBatchId_idem (n : Int) : getBatchId (getBatchId n) = getBatchId n := by
  simpa using getBatchId_add_idem n 0 (le_refl 0) (by norm_num)

/-- C9.  `getBatchId` is the pure floor-division batch resolver: it equals
`floor(n/100)*100` (`Int.fdiv` is floor division), it is total with no
failure mode, and re-applying it to its own result plus any offset in
`[0, 100)` returns the same batch id. -/
theorem C9_getBatchId_floor_idempotent (n : Int) :
    getBatchId n = n.fdiv 100 * 100 ∧
    ∀ k : Int, 0 ≤ k → k < 100 → getBatchId (getBatchId n + k) = getBatchId n :=
  ⟨rfl, fun k hk0 hk => getBatchId_add_idem n k hk0 hk⟩

/-- Witness for C9 at `n = 250`, `k = 30`. -/
theorem C9_witness :
    ((0 : Int) ≤ 30 ∧ (30 : Int) < 100) ∧
    getBatchId 250 = Int.fdiv 250 100 * 100 ∧
    getBatchId (getBatchId 250 + 30) = getBatchId 250 :=
  ⟨by decide, (C9_getBatchId_floor_idempotent 250).1,
    (C9_getBatchId_floor_idempotent 250).2 30 (by decide) (by decide)⟩

/-! ### C5: failed batch fetches degrade to empty list / not-found -/

/-- C5.  When the transport fails for an id's batch (404, any non-success
status, or a thrown error), `fetchNewsRawBatch` resolves to `[]` rather than
propagating the failure, and `fetchNewsRawById` for an id in that batch
returns `none` (`undefined`) instead of an error. -/
theorem C5_notfound_on_failure (st : RawStore) (id : Int)
    (h : st (getBatchId id) = .err) :
    fetchNewsRawBatch st id = [] ∧ fetchNewsRawById st id = none := by
  have hb : fetchNewsRawBatch st id = [] := by
    unfold fetchNewsRawBatch
    rw [h]
  refine ⟨hb, ?_⟩
  unfold fetchNewsRawById
  rw [hb]
  rfl

/-- Witness for C5 on the everywhere-failing state at id 123. -/
theorem C5_witness :
    stErr (getBatchId 123) = .err ∧
    fetchNewsRawBatch stErr 123 = [] ∧ fetchNewsRawById stErr 123 = none :=
  ⟨rfl, (C5_notfound_on_failure stErr 123 rfl).1,
    (C5_notfound_on_failure stErr 123 rfl).2⟩

/-! ### C1: counterexample for duplicate requested ids -/

/-- C1 counterexample.  For the input `[10, 30, 10]` on a state where both
ids 10 and 30 exist (batch 0 holds items 10 and 30), every requested id has
a matching item, yet the call returns only `[item30, item10]`: one copy of
the duplicated id is dropped even though it was found, and the two found
items come back in the order `30, 10`, not the order `10, 30` in which their
ids first appear in the input (the `idOrder` map keeps the *last* index of a
duplicated id).  Hence the claim, read over every input list, fails: the
output is not the input list with the not-found ids omitted. -/
theorem C1_counterexample :
    (fetchNewsRawByIds stC1 [10, 30, 10]).map RawItem.id = [30, 10] ∧
    ([10, 30, 10].filter (fun i => foundInBatch stC1 i)) = [10, 30, 10] ∧
    (fetchNewsRawByIds stC1 [10, 30, 10]).map RawItem.id ≠ [10, 30, 10] := by
  decide

/-! ### C2: counterexample at a partial latest batch -/

/-- C2 counterexample.  With `latest_id = 103` and items existing densely up
to 103 (`stC2`: batch 0 ends with item 99, batch 100 holds 100-103),
`fetchRecentNews(limit := 5)` fetches only `ceil(5/100) = 1` batch — the
partial batch 100 with 4 items — and returns `[103, 102, 101, 100]`.  The 5
highest-id items that exist at or below 103 are `[103, 102, 101, 100, 99]`
(item 99 exists, in batch 0), so the claim fails: the walk-back covers
`ceil(limit/100)` *whole-batch strides*, which is not enough items when the
latest batch is only partially filled. -/
theorem C2_counterexample :
    (fetchRecentNews stC2 103 5).map RawItem.id = [103, 102, 101, 100] ∧
    foundInBatch stC2 99 = true ∧
    (fetchRecentNews stC2 103 5).map RawItem.id ≠ [103, 102, 101, 100, 99] := by
  decide

/-! ### C4: `searchNews` scans the oldest batches, not the most recent -/

/-- C4.  `searchNews` computes `numBatches = ceil(staticLimit/100)` but then
scans batches `0, 100, ..., (numBatches-1)*100` — the *oldest* batches of
the corpus — contradicting both the spec (a bounded window of the *most
recent* batches) and the function's own comment ("fetch recent batches and
filter").  Concretely, with `staticLimit = 100` on `stC4` (corpus up to
`latest_id = 950`, the only query match sitting in the most recent batch
900), the scan touches exactly batch 0 and returns `[]`, even though the
matching item exists and would match the predicate. -/
theorem C4_search_scans_oldest_batches :
    searchNews stC4 100 queryC4 50 = [] ∧
    searchNewsLog 100 = [0] ∧
    matchesQuery (lowerStr queryC4) hitItem = true ∧
    stC4 900 = .ok [hitItem] := by
  decide

/-! ### C6: the cache and failed fetches -/

/-- C6 counterexample.  When the underlying fetch fails (`stErr`), the
cached `fetchNewsRawBatch` of `src/lib/utils.ts` returns `[]` from the
`catch` block *without* storing anything: afterwards the cache holds no
entry for the batch, and a subsequent call for the same batch issues a new
fetch (`fetches = 1`, not `0`).  This refutes the claim that the returned
empty list is cached when the underlying fetch failed. -/
theorem C6_counterexample :
    fetchNewsRawBatchCached stErr [] 0 = ⟨[], [], 1⟩ ∧
    mapGet (fetchNewsRawBatchCached stErr [] 0).cache (getBatchId 0) = none ∧
    (fetchNewsRawBatchCached stErr
      (fetchNewsRawBatchCached stErr [] 0).cache 0).fetches = 1 := by
  decide

/-- `mapSet` makes `mapGet` see the new binding. -/
theorem mapGet_mapSet_self {β : Type} (m : List (Int × β)) (k : Int) (v : β) :
    mapGet (mapSet m k v) k = some v := by
  induction m with
  | nil => simp [mapSet, mapGet]
  | cons hd tl ih =>
    obtain ⟨k0, v0⟩ := hd
    by_cases h : k0 = k
    · simp [mapSet, mapGet, h]
    · simp [mapSet, mapGet, h, ih]

/-- C6 amended.  For a batch whose fetch succeeds — or which is already
cached — the cached `fetchNewsRawBatch` does store (or keep) an entry for
the batch id containing exactly the returned item list, including a
successfully fetched *empty* list, and a subsequent call for the same batch
returns the stored value while issuing no new fetch.  (When the underlying
fetch fails, the call instead returns `[]` without caching, and the next
call re-fetches; see the counterexample.) -/
theorem C6_cached_on_success (st : RawStore)
    (cache : List (Int × List RawItem)) (startId : Int)
    (h : st (getBatchId startId) ≠ .err ∨
      (mapGet cache (getBatchId startId)).isSome = true) :
    mapGet (fetchNewsRawBatchCached st cache startId).cache (getBatchId startId) =
      some (fetchNewsRawBatchCached st cache startId).items ∧
    fetchNewsRawBatchCached st
        (fetchNewsRawBatchCached st cache startId).cache startId =
      ⟨(fetchNewsRawBatchCached st cache startId).items,
        (fetchNewsRawBatchCached st cache startId).cache, 0⟩ := by
  unfold fetchNewsRawBatchCached
  cases hc : mapGet cache (getBatchId startId) with
  | some items => simp [hc]
  | none =>
    cases hst : st (getBatchId startId) with
    | ok items => simp [hc, hst, mapGet_mapSet_self]
    | err =>
      rcases h with h | h
      · exact absurd hst h
      · rw [hc] at h
        simp at h

/-- Witness for the amended C6 on a state whose batch 0 fetch succeeds with
an empty list. -/
theorem C6_witness :
    ((fun b => if b = 0 then .ok [] else .err : RawStore) (getBatchId 0) ≠ .err ∨
      (mapGet ([] : List (Int × List RawItem)) (getBatchId 0)).isSome = true) ∧
    (mapGet (fetchNewsRawBatchCached
        (fun b => if b = 0 then .ok [] else .err) [] 0).cache (getBatchId 0) =
      some (fetchNewsRawBatchCached
        (fun b => if b = 0 then .ok [] else .err) [] 0).items ∧
    fetchNewsRawBatchCached (fun b => if b = 0 then .ok [] else .err)
        (fetchNewsRawBatchCached
          (fun b => if b = 0 then .ok [] else .err) [] 0).cache 0 =
      ⟨(fetchNewsRawBatchCached
          (fun b => if b = 0 then .ok [] else .err) [] 0).items,
        (fetchNewsRawBatchCached
          (fun b => if b = 0 then .ok [] else .err) [] 0).cache, 0⟩) :=
  ⟨Or.inl (by decide),
    C6_cached_on_success (fun b => if b = 0 then .ok [] else .err) [] 0
      (Or.inl (by decide))⟩

/-! ### C7: the article cache is keyed by item id, not batch id -/

/-- C7.  The build-time cached `fetchNewsArticleById` probes its cache under
`batchStart` but *stores* under the item `id`
(`newsArticleCache.set(id, articles)` after `has(batchStart)`), so the claim
— every inserted key equals the batch id of the stored articles, making a
second call for any id of an already-fetched batch a cache hit with no new
request — is violated by the code.  Concretely, fetching article 250 (batch
200, `stC7`) inserts the key **250** (`getBatchId 250 = 200 ≠ 250`), and the
immediately repeated call for the very same id misses the cache and issues a
new fetch (`fetches = 1`, not `0`).  The code's own cache *probe* under
`batchStart` shows the insert under `id` is a slip (the spec flags exactly
this as a latent cache-miss bug). -/
theorem C7_article_cache_key_bug :
    (fetchNewsArticleByIdCached stC7 [] 250).article = some artC7 ∧
    (fetchNewsArticleByIdCached stC7 [] 250).cache = [(250, [artC7])] ∧
    getBatchId 250 = 200 ∧
    (fetchNewsArticleByIdCached stC7
      (fetchNewsArticleByIdCached stC7 [] 250).cache 250).fetches = 1 := by
  decide

/-! ### The input-order sort key -/

/-- `lastIdx` is `none` exactly for ids not present in the list. -/
theorem lastIdx_eq_none_iff (ids : List Int) (i : Int) :
    lastIdx ids i = none ↔ i ∉ ids := by
  induction ids with
  | nil => simp [lastIdx]
  | cons x rest ih =>
    cases h : lastIdx rest i with
    | some k =>
      have hmem : i ∈ rest := by
        by_contra hmem
        have hnone := ih.mpr hmem
        rw [hnone] at h
        simp at h
      simp [lastIdx, h, hmem]
    | none =>
      have hnr : i ∉ rest := ih.mp h
      by_cases hx : x = i
      · subst hx
        simp [lastIdx, h]
      · have hxi : ¬i = x := fun hh => hx hh.symm
        simp [lastIdx, h, hx, hnr, hxi]

/-- Prepending an element shifts the key of every member of the tail. -/
theorem sortKey_cons_of_mem (x : Int) (rest : List Int) (y : Int)
    (hy : y ∈ rest) : sortKey (x :: rest) y = sortKey rest y + 1 := by
  obtain ⟨k, hk⟩ : ∃ k, lastIdx rest y = some k := by
    cases h : lastIdx rest y with
    | some k => exact ⟨k, rfl⟩
    | none => exact absurd ((lastIdx_eq_none_iff rest y).mp h) (not_not_intro hy)
  simp [sortKey, lastIdx, hk]

/-- The key of the head of a duplicate-free list is `0`. -/
theorem sortKey_cons_self (x : Int) (rest : List Int) (hx : x ∉ rest) :
    sortKey (x :: rest) x = 0 := by
  have h : lastIdx rest x = none := (lastIdx_eq_none_iff rest x).mpr hx
  simp [sortKey, lastIdx, h]

/-- On a duplicate-free input, the input-order key is strictly increasing
along the input. -/
theorem pairwise_sortKey (ids : List Int) (h : ids.Nodup) :
    ids.Pairwise (fun a b => sortKey ids a < sortKey ids b) := by
  induction ids with
  | nil => simp
  | cons x rest ih =>
    have hx : x ∉ rest := (List.nodup_cons.mp h).1
    have hnd : rest.Nodup := (List.nodup_cons.mp h).2
    rw [List.pairwise_cons]
    constructor
    · intro b hb
      rw [sortKey_cons_self x rest hx, sortKey_cons_of_mem x rest b hb]
      omega
    · refine (ih hnd).imp_of_mem ?_
      intro a b ha hb hab
      rw [sortKey_cons_of_mem x rest a ha, sortKey_cons_of_mem x rest b hb]
      omega

/-- A weakly key-sorted permutation of a strictly key-sorted list equals
it.  This is the uniqueness fact behind "the stable sort output is the
input-order filter": distinct keys force the order. -/
theorem perm_sorted_eq {α : Type} (key : α → Nat) :
    ∀ {l₂ l₁ : List α}, l₁.Perm l₂ →
      l₁.Pairwise (fun a b => key a ≤ key b) →
      l₂.Pairwise (fun a b => key a < key b) → l₁ = l₂ := by
  intro l₂
  induction l₂ with
  | nil => intro l₁ hp _ _; exact hp.eq_nil
  | cons y t ih =>
    intro l₁ hp h₁ h₂
    cases l₁ with
    | nil =>
      have := hp.length_eq
      simp at this
    | cons x s =>
      have hx : x = y := by
        by_contra hxy
        have hy_s : y ∈ s := by
          rcases List.mem_cons.mp (hp.mem_iff.mpr (List.mem_cons_self y t)) with
            h | h
          · exact absurd h.symm hxy
          · exact h
        have hx_t : x ∈ t := by
          rcases List.mem_cons.mp (hp.mem_iff.mp (List.mem_cons_self x s)) with
            h | h
          · exact absurd h hxy
          · exact h
        have hle : key x ≤ key y := (List.pairwise_cons.mp h₁).1 y hy_s
        have hlt : key y < key x := (List.pairwise_cons.mp h₂).1 x hx_t
        omega
      subst hx
      rw [ih hp.cons_inv (List.pairwise_cons.mp h₁).2
        (List.pairwise_cons.mp h₂).2]

/-! ### Correctness of the batch grouping -/

/-- Inserting an id for a batch key that is not yet present appends a fresh
entry at the end. -/
theorem insertGroup_of_not_mem (gs : List (Int × List Int)) (b i : Int)
    (h : b ∉ gs.map Prod.fst) :
    insertGroup gs b i = gs ++ [(b, [i])] := by
  induction gs with
  | nil => rfl
  | cons g0 rest ih =>
    obtain ⟨b0, l0⟩ := g0
    simp only [List.map_cons, List.mem_cons, not_or] at h
    obtain ⟨h1, h2⟩ := h
    simp only [insertGroup]
    rw [if_neg (fun hh => h1 hh.symm), ih h2]
    rfl

/-- Inserting an id for a batch key that is present appends the id to that
key's entry, leaving the key list unchanged. -/
theorem insertGroup_of_mem (gs : List (Int × List Int)) (b i : Int)
    (hnd : (gs.map Prod.fst).Nodup) (hb : b ∈ gs.map Prod.fst) :
    (insertGroup gs b i).map Prod.fst = gs.map Prod.fst ∧
    ∀ g ∈ insertGroup gs b i,
      (g.1 = b ∧ ∃ l, (b, l) ∈ gs ∧ g.2 = l ++ [i]) ∨ (g.1 ≠ b ∧ g ∈ gs) := by
  induction gs with
  | nil => simp at hb
  | cons g0 rest ih =>
    obtain ⟨b0, l0⟩ := g0
    rw [List.map_cons] at hnd hb
    by_cases hb0 : b0 = b
    · subst hb0
      have hb0r : b0 ∉ rest.map Prod.fst := (List.nodup_cons.mp hnd).1
      constructor
      · simp [insertGroup]
      · intro g hg
        simp only [insertGroup, if_pos rfl] at hg
        rcases List.mem_cons.mp hg with hgeq | hg
        · subst hgeq
          exact Or.inl ⟨rfl, l0, by simp, rfl⟩
        · refine Or.inr ⟨?_, List.mem_cons_of_mem _ hg⟩
          intro hgb
          exact hb0r (hgb ▸ List.mem_map.mpr ⟨g, hg, rfl⟩)
    · have hbr : b ∈ rest.map Prod.fst := by
        rcases List.mem_cons.mp hb with h | h
        · exact absurd h.symm hb0
        · exact h
      have hndr : (rest.map Prod.fst).Nodup := (List.nodup_cons.mp hnd).2
      obtain ⟨ihk, ihe⟩ := ih hndr hbr
      constructor
      · simp only [insertGroup]
        rw [if_neg hb0]
        simp [ihk]
      · intro g hg
        simp only [insertGroup] at hg
        rw [if_neg hb0] at hg
        rcases List.mem_cons.mp hg with rfl | hg
        · exact Or.inr ⟨hb0, List.mem_cons_self _ _⟩
        · rcases ihe g hg with ⟨h1, l, hl, h2⟩ | ⟨h1, h2⟩
          · exact Or.inl ⟨h1, l, List.mem_cons_of_mem _ hl, h2⟩
          · exact Or.inr ⟨h1, List.mem_cons_of_mem _ h2⟩

/-- The batch-group map of `fetchNewsRawByIds` is correct: its keys are
exactly the distinct batch ids of the input (each occurring once), and the
entry of key `b` collects, in input order, exactly the requested ids whose
batch is `b`. -/
theorem batchGroups_spec (ids : List Int) :
    ((batchGroups ids).map Prod.fst).Nodup ∧
    (∀ b, b ∈ (batchGroups ids).map Prod.fst ↔ b ∈ ids.map getBatchId) ∧
    (∀ g ∈ batchGroups ids, g.2 = ids.filter (fun j => getBatchId j == g.1)) := by
  induction ids using List.reverseRecOn with
  | nil => simp [batchGroups]
  | append_singleton p i ih =>
    obtain ⟨ihnd, ihmem, ihent⟩ := ih
    have hstep : batchGroups (p ++ [i]) =
        insertGroup (batchGroups p) (getBatchId i) i := by
      simp [batchGroups, List.foldl_append]
    rw [hstep]
    by_cases hb : getBatchId i ∈ (batchGroups p).map Prod.fst
    · obtain ⟨hk, he⟩ := insertGroup_of_mem _ _ i ihnd hb
      refine ⟨hk ▸ ihnd, ?_, ?_⟩
      · intro b
        rw [hk, ihmem, List.map_append]
        simp only [List.mem_append, List.map_cons, List.map_nil,
          List.mem_singleton]
        constructor
        · exact Or.inl
        · rintro (h | rfl)
          · exact h
          · exact (ihmem _).mp hb
      · intro g hg
        rcases he g hg with ⟨h1, l, hl, h2⟩ | ⟨h1, h2⟩
        · have hlv : l = p.filter (fun j => getBatchId j == getBatchId i) := by
            simpa using ihent (getBatchId i, l) hl
          rw [h2, hlv, h1, List.filter_append]
          simp
        · rw [ihent g h2, List.filter_append]
          have : (getBatchId i == g.1) = false := by
            simpa using fun hh : getBatchId i = g.1 => h1 hh.symm
          simp [this]
    · rw [insertGroup_of_not_mem _ _ i hb]
      refine ⟨?_, ?_, ?_⟩
      · rw [List.map_append]
        refine List.Nodup.append ihnd (by simp) ?_
        intro a ha hb2
        simp only [List.map_cons, List.map_nil, List.mem_singleton] at hb2
        exact hb (hb2 ▸ ha)
      · intro b
        rw [List.map_append, List.map_append]
        simp only [List.mem_append, List.map_cons, List.map_nil,
          List.mem_singleton]
        rw [ihmem]
      · intro g hg
        rcases List.mem_append.mp hg with hg | hg
        · have hne : getBatchId i ≠ g.1 := by
            intro hh
            exact hb (hh ▸ List.mem_map.mpr ⟨g, hg, rfl⟩)
          rw [ihent g hg, List.filter_append]
          have : (getBatchId i == g.1) = false := by simpa using hne
          simp [this]
        · simp only [List.mem_singleton] at hg
          subst hg
          rw [List.filter_append]
          have hnil : p.filter (fun j => getBatchId j == getBatchId i) = [] := by
            rw [List.filter_eq_nil_iff]
            intro j hj hjb
            refine hb ((ihmem _).mpr ?_)
            rw [beq_iff_eq] at hjb
            exact hjb ▸ List.mem_map.mpr ⟨j, hj, rfl⟩
          simp [hnil]

/-! ### The concatenation step of `fetchNewsRawByIds` -/

/-- `fetchNewsRawBatch` already floors its argument, so applying it to a
batch id gives the id's own batch. -/
theorem fetchNewsRawBatch_getBatchId (st : RawStore) (i : Int) :
    fetchNewsRawBatch st (getBatchId i) = fetchNewsRawBatch st i := by
  unfold fetchNewsRawBatch
  rw [getBatchId_idem]

/-- Membership in a batch-group entry. -/
theorem mem_batchGroups_entry (ids : List Int) (g : Int × List Int)
    (hg : g ∈ batchGroups ids) (j : Int) :
    j ∈ g.2 ↔ j ∈ ids ∧ getBatchId j = g.1 := by
  rw [(batchGroups_spec ids).2.2 g hg, List.mem_filter]
  simp

/-- The ids of the concatenated per-batch matches are duplicate-free, as
long as no single batch holds two items with the same id.  (This needs no
assumption on the requested ids: an item is kept for batch group `b` only
when its id is a requested id whose batch is `b`, so items surviving the
filters of two different groups have ids in different batches.) -/
theorem byIdsPre_map_id_nodup (st : RawStore) (ids : List Int)
    (hst : ∀ b, ((fetchNewsRawBatch st b).map RawItem.id).Nodup) :
    ((byIdsPre st ids).map RawItem.id).Nodup := by
  unfold byIdsPre
  rw [List.map_flatMap, List.nodup_flatMap]
  constructor
  · intro g _
    exact (hst g.1).sublist
      ((List.filter_sublist (fetchNewsRawBatch st g.1)).map RawItem.id)
  · have hkeys := (batchGroups_spec ids).1
    have hne : (batchGroups ids).Pairwise (fun g g' => g.1 ≠ g'.1) :=
      List.pairwise_map.mp hkeys
    refine hne.imp_of_mem ?_
    intro g g' hg hg' hgg
    intro a ha ha'
    simp only [List.mem_map, List.mem_filter] at ha ha'
    obtain ⟨item, ⟨_, hcon⟩, hid⟩ := ha
    obtain ⟨item', ⟨_, hcon'⟩, hid'⟩ := ha'
    simp only [List.contains_eq_any_beq, List.any_eq_true, beq_iff_eq] at hcon hcon'
    obtain ⟨j, hj, hjeq⟩ := hcon
    obtain ⟨j', hj', hjeq'⟩ := hcon'
    subst hjeq
    subst hjeq'
    rw [hid] at hj
    rw [hid'] at hj'
    have h1 := ((mem_batchGroups_entry ids g hg a).mp hj).2
    have h2 := ((mem_batchGroups_entry ids g' hg' a).mp hj').2
    exact hgg (h1 ▸ h2 ▸ rfl)

/-- An id occurs among the concatenated matches exactly when it was
requested and its batch (with failures collapsed to `[]`) holds an item
with that id. -/
theorem byIdsPre_map_id_mem (st : RawStore) (ids : List Int) (i : Int) :
    i ∈ (byIdsPre st ids).map RawItem.id ↔
      i ∈ ids ∧ foundInBatch st i = true := by
  unfold byIdsPre
  rw [List.map_flatMap]
  simp only [List.mem_flatMap, List.mem_map, List.mem_filter]
  constructor
  · rintro ⟨g, hg, item, ⟨hitem, hcon⟩, hid⟩
    simp only [List.contains_eq_any_beq, List.any_eq_true, beq_iff_eq] at hcon
    obtain ⟨j, hj, hjeq⟩ := hcon
    subst hjeq
    rw [hid] at hj
    obtain ⟨hin, hbatch⟩ := (mem_batchGroups_entry ids g hg i).mp hj
    refine ⟨hin, ?_⟩
    unfold foundInBatch
    rw [List.any_eq_true]
    refine ⟨item, ?_, by simp [hid]⟩
    rw [← fetchNewsRawBatch_getBatchId st i, hbatch]
    exact hitem
  · rintro ⟨hin, hfound⟩
    have hkey : getBatchId i ∈ (batchGroups ids).map Prod.fst :=
      ((batchGroups_spec ids).2.1 _).mpr (List.mem_map.mpr ⟨i, hin, rfl⟩)
    obtain ⟨g, hg, hg1⟩ := List.mem_map.mp hkey
    unfold foundInBatch at hfound
    rw [List.any_eq_true] at hfound
    obtain ⟨item, hitem, hbeq⟩ := hfound
    rw [beq_iff_eq] at hbeq
    refine ⟨g, hg, item, ⟨?_, ?_⟩, hbeq⟩
    · rw [hg1, fetchNewsRawBatch_getBatchId]
      exact hitem
    · simp only [List.contains_eq_any_beq, List.any_eq_true, beq_iff_eq]
      refine ⟨i, ?_, hbeq⟩
      exact (mem_batchGroups_entry ids g hg i).mpr ⟨hin, hg1.symm⟩

/-- Every concatenated match is an item whose id was requested. -/
theorem byIdsPre_id_mem_ids (st : RawStore) (ids : List Int) (item : RawItem)
    (h : item ∈ byIdsPre st ids) : item.id ∈ ids := by
  unfold byIdsPre at h
  simp only [List.mem_flatMap, List.mem_filter] at h
  obtain ⟨g, hg, _, hcon⟩ := h
  simp only [List.contains_eq_any_beq, List.any_eq_true, beq_iff_eq] at hcon
  obtain ⟨j, hj, hjeq⟩ := hcon
  subst hjeq
  exact ((mem_batchGroups_entry ids g hg _).mp hj).1

/-! ### The full `fetchNewsRawByIds` characterization -/

/-- For a duplicate-free request list (and batches without duplicated ids),
`fetchNewsRawByIds` returns exactly the requested ids that have a matching
item, in the order the ids appear in the request. -/
theorem fetchNewsRawByIds_map_id (st : RawStore) (ids : List Int)
    (hids : ids.Nodup)
    (hst : ∀ b, ((fetchNewsRawBatch st b).map RawItem.id).Nodup) :
    (fetchNewsRawByIds st ids).map RawItem.id =
      ids.filter (fun i => foundInBatch st i) := by
  by_cases h : ids = []
  · subst h
    simp [fetchNewsRawByIds]
  · unfold fetchNewsRawByIds
    rw [if_neg h]
    apply perm_sorted_eq (sortKey ids)
    · refine ((List.perm_insertionSort (byIdsLE ids)
        (byIdsPre st ids)).map RawItem.id).trans ?_
      rw [List.perm_ext_iff_of_nodup (byIdsPre_map_id_nodup st ids hst)
        (hids.filter _)]
      intro a
      rw [byIdsPre_map_id_mem, List.mem_filter]
    · haveI : IsTotal RawItem (byIdsLE ids) := ⟨fun a b => Nat.le_total _ _⟩
      haveI : IsTrans RawItem (byIdsLE ids) :=
        ⟨fun a b c hab hbc => Nat.le_trans hab hbc⟩
      have hs := List.sorted_insertionSort (byIdsLE ids) (byIdsPre st ids)
      exact List.pairwise_map.mpr hs
    · exact List.Pairwise.sublist (List.filter_sublist ids)
        (pairwise_sortKey ids hids)

/-! ### Claim theorems over `fetchNewsRawByIds` -/

/-- C1 amended.  For every *duplicate-free* input list of ids (and batches
holding at most one item per id), `fetchNewsRawByIds` returns the found
items in the order their ids appear in the input list: the id sequence of
the result is exactly the input list with the not-found ids omitted, so the
relative order of the rest is preserved and the result can only be shorter
than the input.  (For inputs with duplicated ids the original claim fails —
see the counterexample — because the duplicate is collapsed and ordering
follows the id's *last* occurrence.) -/
theorem C1_order_of_distinct_ids (st : RawStore) (ids : List Int)
    (hids : ids.Nodup)
    (hst : ∀ b, ((fetchNewsRawBatch st b).map RawItem.id).Nodup) :
    (fetchNewsRawByIds st ids).map RawItem.id =
      ids.filter (fun i => foundInBatch st i) ∧
    (fetchNewsRawByIds st ids).length ≤ ids.length := by
  have hmain := fetchNewsRawByIds_map_id st ids hids hst
  refine ⟨hmain, ?_⟩
  have hlen : (fetchNewsRawByIds st ids).length =
      ((fetchNewsRawByIds st ids).map RawItem.id).length :=
    (List.length_map _ _).symm
  rw [hlen, hmain]
  exact List.length_filter_le _ _

/-- The data state of the spec's worked example: batch 0 holds items 10 and
30, batch 100 holds item 120. -/
def stW1 : RawStore := fun b =>
  if b = 0 then .ok [itm 10, itm 30]
  else if b = 100 then .ok [itm 120]
  else .err

/-- Every batch of `stW1` has duplicate-free item ids. -/
theorem stW1_nodup :
    ∀ b, ((fetchNewsRawBatch stW1 b).map RawItem.id).Nodup := by
  intro b
  unfold fetchNewsRawBatch stW1
  split_ifs <;> decide

/-- Witness for the amended C1 on the spec's example input `[30, 10, 120]`. -/
theorem C1_order_witness :
    ([30, 10, 120] : List Int).Nodup ∧
    (∀ b, ((fetchNewsRawBatch stW1 b).map RawItem.id).Nodup) ∧
    ((fetchNewsRawByIds stW1 [30, 10, 120]).map RawItem.id =
      [30, 10, 120].filter (fun i => foundInBatch stW1 i) ∧
     (fetchNewsRawByIds stW1 [30, 10, 120]).length ≤
       ([30, 10, 120] : List Int).length) :=
  ⟨by decide, stW1_nodup,
    C1_order_of_distinct_ids stW1 [30, 10, 120] (by decide) stW1_nodup⟩

/-- C3.  If, during a single `fetchNewsRawByIds` call, the transport fails
for one batch (`st bFail = .err`) while others succeed, the call still
returns the matching items of the successfully fetched batches: ids in the
failing batch are simply not found (conjunct 2), every requested id found
in its (necessarily successful) batch is in the result (conjunct 3), and
the overall result is the in-order filter of the request by found-ness
(conjunct 1) — the broken batch degrades the result set silently instead of
aborting the aggregate operation. -/
theorem C3_failed_batch_degrades (st : RawStore) (ids : List Int)
    (bFail : Int) (hids : ids.Nodup)
    (hst : ∀ b, ((fetchNewsRawBatch st b).map RawItem.id).Nodup)
    (hfail : st bFail = .err) :
    (fetchNewsRawByIds st ids).map RawItem.id =
      ids.filter (fun i => foundInBatch st i) ∧
    (∀ i ∈ ids, getBatchId i = bFail → foundInBatch st i = false) ∧
    (∀ i ∈ ids, foundInBatch st i = true →
      i ∈ (fetchNewsRawByIds st ids).map RawItem.id) := by
  have hmain := fetchNewsRawByIds_map_id st ids hids hst
  refine ⟨hmain, ?_, ?_⟩
  · intro i _ hib
    unfold foundInBatch fetchNewsRawBatch
    rw [hib, hfail]
    rfl
  · intro i hi hf
    rw [hmain, List.mem_filter]
    exact ⟨hi, hf⟩

/-- Data state for the C3 witness: batches 0 and 200 succeed, batch 100
fails at the transport. -/
def stW3 : RawStore := fun b =>
  if b = 0 then .ok [itm 10]
  else if b = 200 then .ok [itm 210]
  else .err

/-- Every batch of `stW3` has duplicate-free item ids. -/
theorem stW3_nodup :
    ∀ b, ((fetchNewsRawBatch stW3 b).map RawItem.id).Nodup := by
  intro b
  unfold fetchNewsRawBatch stW3
  split_ifs <;> decide

/-- Witness for C3: a three-batch request where the middle batch's fetch
fails still yields the matches of the two successful batches. -/
theorem C3_witness :
    ([10, 110, 210] : List Int).Nodup ∧
    (∀ b, ((fetchNewsRawBatch stW3 b).map RawItem.id).Nodup) ∧
    stW3 100 = .err ∧
    ((fetchNewsRawByIds stW3 [10, 110, 210]).map RawItem.id =
      [10, 110, 210].filter (fun i => foundInBatch stW3 i) ∧
     (∀ i ∈ ([10, 110, 210] : List Int), getBatchId i = 100 →
       foundInBatch stW3 i = false) ∧
     (∀ i ∈ ([10, 110, 210] : List Int), foundInBatch stW3 i = true →
       i ∈ (fetchNewsRawByIds stW3 [10, 110, 210]).map RawItem.id)) :=
  ⟨by decide, stW3_nodup, rfl,
    C3_failed_batch_degrades stW3 [10, 110, 210] 100 (by decide)
      stW3_nodup rfl⟩

/-- C8.  One `fetchNewsRawByIds` call issues exactly one underlying batch
fetch per distinct batch id of the input: the fetch log has no duplicates,
and it contains precisely the batch ids computed from the requested ids. -/
theorem C8_one_fetch_per_distinct_batch (ids : List Int) :
    (fetchNewsRawByIdsLog ids).Nodup ∧
    ∀ b, b ∈ fetchNewsRawByIdsLog ids ↔ b ∈ ids.map getBatchId := by
  unfold fetchNewsRawByIdsLog
  exact ⟨(batchGroups_spec ids).1, (batchGroups_spec ids).2.1⟩

/-- C10.  Provided every batch holds at most one item per id, the items
returned by `fetchNewsRawByIds` have pairwise distinct ids — duplicated
input ids do not produce duplicated items — and every returned item's id is
a requested id. -/
theorem C10_no_duplicate_items (st : RawStore) (ids : List Int)
    (hst : ∀ b, ((fetchNewsRawBatch st b).map RawItem.id).Nodup) :
    ((fetchNewsRawByIds st ids).map RawItem.id).Nodup ∧
    ∀ item ∈ fetchNewsRawByIds st ids, item.id ∈ ids := by
  by_cases h : ids = []
  · subst h
    simp [fetchNewsRawByIds]
  · unfold fetchNewsRawByIds
    rw [if_neg h]
    have hperm := List.perm_insertionSort (byIdsLE ids) (byIdsPre st ids)
    constructor
    · exact ((hperm.map RawItem.id).nodup_iff).mpr
        (byIdsPre_map_id_nodup st ids hst)
    · intro item hitem
      exact byIdsPre_id_mem_ids st ids item (hperm.mem_iff.mp hitem)

/-- Witness for C10 on a duplicated request: `[10, 30, 10]` returns item
ids `[30, 10]`, pairwise distinct and all requested. -/
theorem C10_witness :
    (∀ b, ((fetchNewsRawBatch stW1 b).map RawItem.id).Nodup) ∧
    (((fetchNewsRawByIds stW1 [10, 30, 10]).map RawItem.id).Nodup ∧
     ∀ item ∈ fetchNewsRawByIds stW1 [10, 30, 10],
       item.id ∈ ([10, 30, 10] : List Int)) :=
  ⟨stW1_nodup, C10_no_duplicate_items stW1 [10, 30, 10] stW1_nodup⟩

/-! ### The amended `fetchRecentNews` property -/

/-- C2 amended.  For every `limit ≥ 1`, `fetchRecentNews` returns the
`limit` highest-id items *among the items of the batches it fetches* (the
`ceil(limit/100)` batches walking back from `latest_id` in strides of 100),
sorted descending by id: the result is descending, its length is
`min limit |pool|`, and no fetched item outside the result has an id above
any returned item.  (It is *not* in general the `limit` highest-id items
existing at or below `latest_id`: when the latest batch is partial the
fetched pool can contain fewer than `limit` items even though older batches
hold more — see the counterexample.) -/
theorem C2_recent_topN_of_fetched (st : RawStore) (latestId : Int)
    (limit : Nat) (_hlim : 1 ≤ limit) :
    (fetchRecentNews st latestId limit).Pairwise (fun a b => b.id ≤ a.id) ∧
    (fetchRecentNews st latestId limit).length =
      min limit (recentPool st latestId limit).length ∧
    ∀ x ∈ recentPool st latestId limit,
      x ∉ fetchRecentNews st latestId limit →
      ∀ y ∈ fetchRecentNews st latestId limit, x.id ≤ y.id := by
  haveI : IsTotal RawItem recentLE := ⟨fun a b => Int.le_total b.id a.id⟩
  haveI : IsTrans RawItem recentLE :=
    ⟨fun _ _ _ hab hbc => Int.le_trans hbc hab⟩
  have hsorted : (List.insertionSort recentLE
      (recentPool st latestId limit)).Pairwise recentLE :=
    List.sorted_insertionSort recentLE _
  have hperm := List.perm_insertionSort recentLE (recentPool st latestId limit)
  unfold fetchRecentNews
  refine ⟨?_, ?_, ?_⟩
  · exact List.Pairwise.sublist (List.take_sublist limit _) hsorted
  · rw [List.length_take, hperm.length_eq]
  · intro x hx hnx y hy
    have hsorted2 : ((List.insertionSort recentLE
        (recentPool st latestId limit)).take limit ++
        (List.insertionSort recentLE
          (recentPool st latestId limit)).drop limit).Pairwise recentLE := by
      rw [List.take_append_drop]
      exact hsorted
    have hxs : x ∈ List.insertionSort recentLE (recentPool st latestId limit) :=
      hperm.mem_iff.mpr hx
    rw [← List.take_append_drop limit (List.insertionSort recentLE
      (recentPool st latestId limit))] at hxs
    have hxd : x ∈ (List.insertionSort recentLE
        (recentPool st latestId limit)).drop limit := by
      rcases List.mem_append.mp hxs with hcase | hcase
      · exact absurd hcase hnx
      · exact hcase
    exact (List.pairwise_append.mp hsorted2).2.2 y hy x hxd

/-- Witness for the amended C2 on the partial-latest-batch state. -/
theorem C2_recent_witness :
    1 ≤ 5 ∧
    ((fetchRecentNews stC2 103 5).Pairwise (fun a b => b.id ≤ a.id) ∧
     (fetchRecentNews stC2 103 5).length =
       min 5 (recentPool stC2 103 5).length ∧
     ∀ x ∈ recentPool stC2 103 5, x ∉ fetchRecentNews stC2 103 5 →
       ∀ y ∈ fetchRecentNews stC2 103 5, x.id ≤ y.id) :=
  ⟨by decide, C2_recent_topN_of_fetched stC2 103 5 (by decide)⟩

end NewsFE
